import Mathlib

/-!
Verification of the quora question-classification pipeline.

Shallow embedding of the repository's pure logic:
* `src/tokenizers.py` — whitespace, punctuation-aware and lowercased-spacy
  tokenizer strategies;
* `src/learner.py` — the training-loop control state (early stopping,
  checkpointing), the threshold search `_choose_tr`, `format_info`, and the
  two label-thresholding rules;
* `src/preprocess.py` — the joint train+test vocabulary build;
* `src/ens_model_list.py` — the static model registry.

External numeric collaborators (the spacy tokenizer, sklearn's `f1_score`)
are modelled at the probability/token level; machine reals are modelled by ℚ.
-/

namespace Quora

/-! ### Tokenizers (`src/tokenizers.py`) -/

/-- Python `text.split(' ')` on a list of characters: splits at every single
space, keeping empty pieces (`"a  b".split(' ') == ["a", "", "b"]`,
`"".split(' ') == [""]`). -/
def splitSpace : List Char → List (List Char)
  | [] => [[]]
  | c :: rest =>
    if c = ' ' then [] :: splitSpace rest
    else
      match splitSpace rest with
      | [] => [[c]]
      | g :: gs => (c :: g) :: gs

/-- Python `' '.join(pieces)` on lists of characters. -/
def joinSpace : List (List Char) → List Char
  | [] => []
  | [g] => g
  | g :: gs => g ++ ' ' :: joinSpace gs

/-- Embeds `WhitespaceTokenizer.__call__`: `text.split(' ')`, no normalization,
empty pieces kept. -/
def whitespaceTokenizer (text : List Char) : List (List Char) :=
  splitSpace text

/-- The punctuation character class of `CustomTokenizer`: the regex
`[,!.?()]`. -/
def isPunct (c : Char) : Bool :=
  c = ',' ∨ c = '!' ∨ c = '.' ∨ c = '?' ∨ c = '('  ∨ c = ')'

/-- Embeds `CustomTokenizer.__call__` applied to one space-delimited substring:
`re.search` finds the first punctuation character; if found at index `start`
the substring becomes `[ss[:start], ss[start], ss[start+1:]]` with empty
pieces dropped, otherwise it passes through unchanged. -/
def customTokenizeSub (ss : List Char) : List (List Char) :=
  match ss.findIdx? (fun c => isPunct c) with
  | some start =>
      [ss.take start, ss.drop start |>.take 1, ss.drop (start + 1)].filter
        (fun t => 0 < t.length)
  | none => [ss]

/-- Embeds `CustomTokenizer.__call__`: split on spaces, then split each substring at
its first punctuation character. -/
def customTokenizer (text : List Char) : List (List Char) :=
  (splitSpace text).flatMap customTokenizeSub

/-- Embeds `lower_spacy` (`src/tokenizers.py` lines 5–8): lowercases the input,
then applies the loaded spacy tokenizer.  The spacy `'en'` tokenizer is an
external resource, passed here as the function `spacyTok`. -/
def lower_spacy (spacyTok : String → List String) (x : String) : List String :=
  spacyTok x.toLower

/-- Embeds `LowerSpacy.__call__` (`src/tokenizers.py` lines 10–16): loads the spacy
model and returns `lambda x: [tok.text for tok in spacy_en.tokenizer(x)]` —
a curried tokenizing function that ignores the `text` argument and performs
no lowercasing. -/
def LowerSpacy_call (spacyTok : String → List String) (_text : String) :
    String → List String :=
  fun x => spacyTok x

/-- A concrete stand-in for the spacy `'en'` tokenizer on one-word inputs:
spacy returns the word itself as a single token, case preserved. -/
def spacyOneWord (s : String) : List String := [s]

/-! ### Learner training-loop control state (`src/learner.py`, `fit`)

`fit` is embedded as a state machine over the control variables that decide
early stopping and checkpointing (`max_f1`, `no_improve_epoch`,
`no_improve_in_previous_epoch`), abstracting the tensor computation: a run is
described by, for each epoch, the list of validation F1 values produced by
the evaluations inside that epoch (one entry per `step % eval_every == 0`
evaluation, in order). -/

/-- Control state of `Learner.fit`: running best F1 (`max_f1`), the
no-improvement epoch counter (`no_improve_epoch`), the per-epoch
no-improvement flag (`no_improve_in_previous_epoch`), the list of epoch
indices whose batches were processed, and the number of checkpoint saves. -/
structure FitSt where
  maxF1 : ℚ
  noImproveEpoch : ℕ
  noImproveInPrevEpoch : Bool
  processed : List ℕ
  saves : ℕ
deriving Repr, DecidableEq

/-- Initial state at the top of `fit`: `max_f1 = 0`, `no_improve_epoch = 0`,
`no_improve_in_previous_epoch = False`, nothing processed, nothing saved. -/
def initFitSt : FitSt :=
  { maxF1 := 0, noImproveEpoch := 0, noImproveInPrevEpoch := false
    processed := [], saves := 0 }

/-- One validation evaluation inside `fit` (lines 103–106): if the current
F1 is `>= max_f1` the model is saved, `max_f1` is updated and the
no-improvement flag is cleared; otherwise nothing happens. -/
def processEval (st : FitSt) (f1 : ℚ) : FitSt :=
  if st.maxF1 ≤ f1 then
    { st with maxF1 := f1, noImproveInPrevEpoch := false, saves := st.saves + 1 }
  else st

/-- Processing the batches of epoch `e`: the epoch index is recorded as
processed, then each validation evaluation of the epoch updates the state in
order. -/
def processEpoch (e : ℕ) (evals : List ℚ) (st : FitSt) : FitSt :=
  evals.foldl processEval { st with processed := st.processed ++ [e] }

/-- The epoch loop of `fit` (lines 49–106): at the top of each epoch with
index `e ≥ warmup_epoch`, if the previous epoch set the no-improvement flag
the counter increments and, once it reaches `early_stop`, the loop breaks
before processing any batch of the epoch; otherwise the counter resets to 0.
The flag is then set unconditionally and only cleared by an in-epoch
improvement. -/
def fitGo (warmup early_stop : ℕ) : ℕ → List (List ℚ) → FitSt → FitSt
  | _, [], st => st
  | e, evals :: rest, st =>
    if warmup ≤ e then
      if st.noImproveInPrevEpoch then
        let c := st.noImproveEpoch + 1
        if early_stop ≤ c then { st with noImproveEpoch := c }
        else
          fitGo warmup early_stop (e + 1) rest
            (processEpoch e evals { st with noImproveEpoch := c, noImproveInPrevEpoch := true })
      else
        fitGo warmup early_stop (e + 1) rest
          (processEpoch e evals { st with noImproveEpoch := 0, noImproveInPrevEpoch := true })
    else
      fitGo warmup early_stop (e + 1) rest (processEpoch e evals st)

/-- Embeds `Learner.fit` on a run described by per-epoch evaluation F1 lists. -/
def fit (epochEvals : List (List ℚ)) (warmup early_stop : ℕ) : FitSt :=
  fitGo warmup early_stop 0 epochEvals initFitSt

/-! ### Threshold search (`src/learner.py`, `predict_labels._choose_tr`) -/

/-- Embeds `np.arange(lo, hi, step)` for a positive rational step: the list
`lo, lo + step, …` of length `⌈(hi - lo) / step⌉` (empty when that count is
not positive), so the scan runs from `lo` up to but excluding `hi`. -/
def arange (lo hi step : ℚ) : List ℚ :=
  (List.range (⌈(hi - lo) / step⌉).toNat).map (fun i : ℕ => lo + (i : ℚ) * step)

/-- sklearn's binary `f1_score(y_true, y_pred)`: with `tp` true positives,
`fp` false positives and `fn` false negatives,
`f1 = 2·tp / (2·tp + fp + fn)`, and `0.0` for the degenerate case where the
denominator vanishes (sklearn emits a suppressed warning there). -/
def f1_score (yTrue yPred : List Bool) : ℚ :=
  let pairs := yTrue.zip yPred
  let tp : ℚ := ((pairs.filter (fun p => p.1 && p.2)).length : ℚ)
  let fp : ℚ := ((pairs.filter (fun p => !p.1 && p.2)).length : ℚ)
  let fn : ℚ := ((pairs.filter (fun p => p.1 && !p.2)).length : ℚ)
  if 2 * tp + fp + fn = 0 then 0 else 2 * tp / (2 * tp + fp + fn)

/-- The scan loop of `_choose_tr` (lines 140–146): for each candidate `t`,
compute its F1; update the retained threshold and best F1 only when the new
F1 is strictly greater than the best so far. -/
def scanBest (F : ℚ → ℚ) : List ℚ → ℚ × ℚ → ℚ × ℚ
  | [], s => s
  | t :: rest, (tr, best) =>
    if best < F t then scanBest F rest (t, F t) else scanBest F rest (tr, best)

/-- The score of one candidate threshold inside `_choose_tr` (line 143):
`f1_score(val_true, np.array(val_pred) > tmp[0])` — probabilities are
thresholded with strict greater. -/
def candF1 (valTrue : List Bool) (valPred : List ℚ) (t : ℚ) : ℚ :=
  f1_score valTrue (valPred.map (fun p => decide (t < p)))

/-- Embeds `_choose_tr(min_tr, max_tr, tr_step)` on validation truth `valTrue` and
probabilities `valPred`: candidates are `np.arange(min_tr, max_tr, tr_step)`,
each scored by `candF1`; the initial retained threshold is `min_tr` with
best F1 `0`. -/
def choose_tr (valTrue : List Bool) (valPred : List ℚ) (minTr maxTr trStep : ℚ) :
    ℚ × ℚ :=
  scanBest (candF1 valTrue valPred) (arange minTr maxTr trStep) (minTr, 0)

/-- The running maximum of `F` over a candidate list, starting from `b0` —
the value `tmp[2]` holds after the scan of `_choose_tr`. -/
def runMax (F : ℚ → ℚ) (b0 : ℚ) (l : List ℚ) : ℚ :=
  l.foldl (fun m t => max m (F t)) b0

/-! ### Label thresholding rules (`src/learner.py` lines 87 and 156) -/

/-- The validation labelling inside `fit` (line 87):
`(torch.sigmoid(val_pred) > tresh)` — strictly greater.  `prob` is the
sigmoid output. -/
def fitValLabel (prob tresh : ℚ) : Bool := tresh < prob

/-- The labelling in `predict_labels` with a fixed numeric threshold
(line 156): `(np.array(y_pred) >= tresh)` — greater or equal. -/
def predictLabel (prob tresh : ℚ) : Bool := tresh ≤ prob

/-! ### `Learner.format_info` (lines 164–170) -/

/-- Python's `round` to the nearest integer, ties to even (banker's
rounding). -/
def pyRoundInt (x : ℚ) : ℤ :=
  let f := ⌊x⌋
  let r := x - f
  if r < 1 / 2 then f
  else if 1 / 2 < r then f + 1
  else if f % 2 = 0 then f else f + 1

/-- Python `round(v, 4)`: round to 4 decimal places, ties to even. -/
def round4 (v : ℚ) : ℚ := (pyRoundInt (v * 10000) : ℚ) / 10000

/-- Embeds `Learner.format_info`: rounds every value of the info record to 4
decimal places, keeping the keys. -/
def format_info (info : List (String × ℚ)) : List (String × ℚ) :=
  info.map (fun kv => (kv.1, round4 kv.2))

/-! ### Vocabulary build (`src/preprocess.py`, `Data.preprocess`) -/

/-- Number of occurrences of a token across a tokenized dataset (a list of
token lists, one per record). -/
def tokenCount (dataset : List (List String)) (tok : String) : ℕ :=
  (dataset.flatMap id).count tok

/-- torchtext `Field.build_vocab(train, test, min_freq=1)` membership, as
invoked at `src/preprocess.py` line 47: a token gets a vocabulary slot iff
its total count over the concatenated train and test datasets reaches
`min_freq`. -/
def inVocab (train test : List (List String)) (minFreq : ℕ) (tok : String) :
    Bool :=
  minFreq ≤ tokenCount (train ++ test) tok

/-! ### Model registry (`src/ens_model_list.py`) -/

/-- Embeds `model_dict`: the static mapping from short model names to
(run-identifier, argument-string) pairs. -/
def model_dict : List (String × String × String) :=
  [ ("wnews", "Jan_10_2019__21:56:52", "-es 3 -e 10 -em wnews  -hd 150 -we 10 --lrstep 10"),
    ("glove", "Jan_10_2019__22:10:15", "-es 2 -e 9 -hd 150"),
    ("paragram", "Jan_11_2019__11:10:57", "-hd 150 -es 2 -e 10 -em paragram -t lowerspacy -us 0"),
    ("gnews", "Jan_11_2019__20:21:01", "-em gnews -es 2 -e 10 -hd 150 -us 0.1"),
    ("gnews_num", "Jan_12_2019__22:13:37", "-em gnews -t gnews_num -es 2 -e 10 -us 0.1 -hd 150"),
    ("wnews_test", "Jan_10_2019__19:33:05_test", "--mode test -em wnews"),
    ("glove_test", "Jan_10_2019__19:34:39_test", "--mode test -em glove"),
    ("glove_cv", "Jan_17_2019__17_59_36", "-hd 150 -k 5 -ne 3"),
    ("paragram_cv", "Jan_15_2019__04_23_16", "-k 5 -hd 150 -e 10 -em paragram -t lowerspacy -us 0.1"),
    ("wnews_cv", "Jan_11_2019__05:09:58", "-es 3 -e 10 -em wnews -m BiLSTMPoolTest -vl -hd 150 -we 10 --lrstep 20 -k 5 -us 0.1"),
    ("gnews_cv", "Jan_18_2019__15_06_29", "-em gnews -es 2 -e 10 -hd 150 -us 0.1 -k 5 -ne 3"),
    ("gnews_num_cv", "Jan_18_2019__16_45_38", "-em gnews -e 10 -hd 150 -us 0.1 -k 5 -ne 3 -t gnews_num"),
    ("gnews_ph_cv", "Jan_19_2019__16_05_11", "-em gnews -e 10 -hd 150 -ne 3 -t gnews_ph -k 5 -us 0.1"),
    ("gnews_ph_num_cv", "Jan_19_2019__18_56_02", "-em gnews -e 10 -hd 150 -ne 3 -t gnews_ph_num -k 5 -us 0.1") ]

/-- Python `model_dict[key]`: `some` of the stored pair, or `none`
(a `KeyError`) when the key is absent. -/
def registryLookup (key : String) : Option (String × String) :=
  (model_dict.find? (fun e => e.1 = key)).map (fun e => e.2)

/-! ### Info-record persistence paths (`src/learner.py`) -/

/-- The info record persisted to `best_model.info` by `fit`
(lines 97–104): the raw record passes through `format_info` before
`save`. -/
def best_info_saved (raw : List (String × ℚ)) : List (String × ℚ) :=
  format_info raw

/-- The run-info values written to the per-run `info.csv` by `record()`
(lines 190–193): the saved info record is loaded and written as-is. -/
def record_detail_row (savedInfo : List (String × ℚ)) : List (String × ℚ) :=
  savedInfo

/-- The run-info values appended to the aggregate log by `record()`
(line 194): the same fields, column order reversed (`reverse=True`). -/
def record_aggregate_row (savedInfo : List (String × ℚ)) : List (String × ℚ) :=
  savedInfo.reverse

/-! ## Theorems -/

/-- C6 counterexample: the plain function and the callable object are not
behaviourally equal.  With a spacy tokenizer that returns a one-word input
as its single token (case preserved, as spacy does), `lower_spacy` on
`"A"` yields `["a"]` while the function returned by `LowerSpacy()("A")`
applied to `"A"` yields `["A"]`. -/
theorem lowerSpacy_not_equivalent :
    lower_spacy spacyOneWord "A" ≠ LowerSpacy_call spacyOneWord "A" "A" := by
  simp only [lower_spacy, LowerSpacy_call, spacyOneWord, String.toLower,
    String.map_eq]
  decide

/-- C6 (amended): `LowerSpacy.__call__` returns a curried tokenizer that
applies the spacy tokenizer with no lowercasing (and ignores the `text`
argument it was invoked with), so the two implementations agree only when
the curried function is applied to the lowercased input:
`lower_spacy tok x = (LowerSpacy()(y)) (x.toLower)` for every `tok`, `y`
and `x`. -/
theorem lowerSpacy_LowerSpacy_relation :
    ∀ (spacyTok : String → List String) (y x : String),
      LowerSpacy_call spacyTok y x = spacyTok x ∧
      lower_spacy spacyTok x = LowerSpacy_call spacyTok y x.toLower :=
  fun _ _ _ => ⟨rfl, rfl⟩

/-- C9: the model registry has exactly fourteen entries; resolving any of
the fourteen keys yields its stored (run-identifier, argument-string) pair
with both components non-empty; resolving an undefined key yields `none`
(Python's `KeyError`), not a default value. -/
theorem model_registry_resolution :
    model_dict.length = 14 ∧
    (model_dict.all fun e =>
      decide (registryLookup e.1 = some e.2 ∧ e.2.1 ≠ "" ∧ e.2.2 ≠ "")) = true ∧
    registryLookup "undefined_model" = none := by
  decide

/-- C10: the two prediction paths disagree at the decision boundary: for a
probability equal to the threshold, `fit`'s validation labelling
(`sigmoid(pred) > tresh`, line 87) yields negative, while `predict_labels`
with a fixed threshold (`prob >= tresh`, line 156) yields positive; in
particular at probability `1/2` and threshold `1/2`. -/
theorem threshold_boundary_inconsistency :
    (∀ p t : ℚ, p = t → fitValLabel p t = false ∧ predictLabel p t = true) ∧
    fitValLabel (1/2) (1/2) = false ∧ predictLabel (1/2) (1/2) = true := by
  refine ⟨?_, by norm_num [fitValLabel], by norm_num [predictLabel]⟩
  intro p t h
  subst h
  constructor
  · simp [fitValLabel]
  · simp [predictLabel]

/-- Witness for C10 at probability `7/10` and threshold `7/10`. -/
theorem threshold_boundary_inconsistency_witness :
    fitValLabel (7/10) (7/10) = false ∧ predictLabel (7/10) (7/10) = true :=
  threshold_boundary_inconsistency.1 (7/10) (7/10) rfl

/-- C7: `format_info` rounds every numeric value of the info record to 4
decimal places; the checkpoint info saved by `fit`, the per-run detail row
and the aggregate-log row all carry exactly those rounded values; a raw
value of `0.123456789` is persisted as `0.1235`. -/
theorem format_info_rounding :
    (∀ raw, format_info raw = raw.map (fun kv => (kv.1, round4 kv.2))) ∧
    round4 (123456789 / 1000000000) = 1235 / 10000 ∧
    (∀ raw, best_info_saved raw = raw.map (fun kv => (kv.1, round4 kv.2))) ∧
    (∀ raw, record_detail_row (best_info_saved raw)
      = raw.map (fun kv => (kv.1, round4 kv.2))) ∧
    (∀ raw, record_aggregate_row (best_info_saved raw)
      = (raw.map (fun kv => (kv.1, round4 kv.2))).reverse) ∧
    format_info [("f1_score", 123456789 / 1000000000)]
      = [("f1_score", 1235 / 10000)] := by
  have hx : (123456789 / 1000000000 : ℚ) * 10000 = 123456789 / 100000 := by
    norm_num
  have hfloor : ⌊(123456789 / 100000 : ℚ)⌋ = 1234 := by
    rw [Int.floor_eq_iff]
    norm_num
  refine ⟨fun raw => rfl, ?_, fun raw => rfl, fun raw => rfl, fun raw => rfl, ?_⟩
  · rw [round4, pyRoundInt, hx, hfloor]
    norm_num
  · simp only [format_info, List.map, round4, pyRoundInt, hx, hfloor]
    norm_num

/-- C5: the vocabulary is built jointly from train and test with minimum
frequency 1, so every token observed in either dataset is in the
vocabulary; in particular a train set with only `"foo"` and a test set
with only `"bar"` yield a vocabulary containing both, in either argument
order. -/
theorem vocab_joint_build :
    (∀ train test tok, ((∃ rec ∈ train, tok ∈ rec) ∨ (∃ rec ∈ test, tok ∈ rec)) →
       inVocab train test 1 tok = true) ∧
    inVocab [["foo"]] [["bar"]] 1 "foo" = true ∧
    inVocab [["foo"]] [["bar"]] 1 "bar" = true ∧
    inVocab [["bar"]] [["foo"]] 1 "foo" = true ∧
    inVocab [["bar"]] [["foo"]] 1 "bar" = true := by
  refine ⟨?_, by decide, by decide, by decide, by decide⟩
  intro train test tok h
  have hmem : tok ∈ (train ++ test).flatMap id := by
    rw [List.mem_flatMap]
    rcases h with ⟨rec, hrec, htok⟩ | ⟨rec, hrec, htok⟩
    · exact ⟨rec, List.mem_append_left _ hrec, htok⟩
    · exact ⟨rec, List.mem_append_right _ hrec, htok⟩
  simp only [inVocab, tokenCount, decide_eq_true_eq]
  exact List.count_pos_iff.mpr hmem

/-- Witness for C5: the general joint-build conjunct applied to the
train set `[["foo"]]` and test set `[["bar"]]` at token `"foo"`. -/
theorem vocab_joint_build_witness :
    inVocab [["foo"]] [["bar"]] 1 "foo" = true :=
  vocab_joint_build.1 [["foo"]] [["bar"]] "foo" (by decide)

/-- The function `splitSpace` never returns the empty list of pieces (Python's
`str.split(' ')` returns at least one piece). -/
theorem splitSpace_ne_nil (l : List Char) : splitSpace l ≠ [] := by
  induction l with
  | nil => simp [splitSpace]
  | cons c rest ih =>
    rw [splitSpace]
    by_cases hc : c = ' '
    · simp [hc]
    · rw [if_neg hc]
      cases h : splitSpace rest with
      | nil => exact absurd h ih
      | cons g gs => simp

/-- Rejoining the pieces of `splitSpace` with single spaces reproduces the
input exactly, for every input. -/
theorem joinSpace_splitSpace (l : List Char) : joinSpace (splitSpace l) = l := by
  induction l with
  | nil => rfl
  | cons c rest ih =>
    obtain ⟨g, gs, hg⟩ : ∃ g gs, splitSpace rest = g :: gs := by
      cases h : splitSpace rest with
      | nil => exact absurd h (splitSpace_ne_nil rest)
      | cons g gs => exact ⟨g, gs, rfl⟩
    rw [splitSpace]
    by_cases hc : c = ' '
    · rw [if_pos hc, hg]
      have hj : joinSpace ([] :: g :: gs) = ' ' :: joinSpace (g :: gs) := rfl
      rw [hj, ← hg, ih, hc]
    · rw [if_neg hc, hg]
      cases gs with
      | nil =>
        have hrest : rest = g := by
          have h' := ih
          rw [hg] at h'
          simpa [joinSpace] using h'.symm
        simp [joinSpace, hrest]
      | cons g2 gs2 =>
        have h1 : joinSpace ((c :: g) :: g2 :: gs2)
            = (c :: g) ++ ' ' :: joinSpace (g2 :: gs2) := rfl
        have h2 : joinSpace (g :: g2 :: gs2)
            = g ++ ' ' :: joinSpace (g2 :: gs2) := rfl
        have hrest : rest = g ++ ' ' :: joinSpace (g2 :: gs2) := by
          rw [← h2, ← hg, ih]
        rw [h1, hrest]
        simp

/-- C8: the whitespace tokenizer splits on the literal space character with
no filtering, so consecutive spaces produce empty-string tokens
(`"a  b"` gives `["a", "", "b"]`), and splitting then rejoining with a
single space reproduces the original text exactly (proved for every input
text, hence in particular for single-space-separated text). -/
theorem whitespace_split_join :
    (∀ text, whitespaceTokenizer text = splitSpace text) ∧
    whitespaceTokenizer "a  b".toList = ["a".toList, "".toList, "b".toList] ∧
    (∀ text, joinSpace (whitespaceTokenizer text) = text) := by
  refine ⟨fun text => rfl, by decide, fun text => joinSpace_splitSpace text⟩

/-- C4: `CustomTokenizer` splits on single spaces; a substring with no
punctuation character passes through unchanged as one token; a substring
whose first punctuation character sits at index `i` splits into the prefix
before `i`, the single character at `i` and the suffix after `i`, empty
pieces dropped; `"hello,world"` tokenizes to `["hello", ",", "world"]` and
`"no punctuation here"` to `["no", "punctuation", "here"]`. -/
theorem customTokenizer_spec :
    (∀ text, customTokenizer text = (splitSpace text).flatMap customTokenizeSub) ∧
    (∀ ss, (∀ c ∈ ss, isPunct c = false) → customTokenizeSub ss = [ss]) ∧
    (∀ ss i, ss.findIdx? (fun c => isPunct c) = some i →
       customTokenizeSub ss
         = [ss.take i, (ss.drop i).take 1, ss.drop (i + 1)].filter
             (fun t => 0 < t.length)) ∧
    customTokenizer "hello,world".toList
      = ["hello".toList, ",".toList, "world".toList] ∧
    customTokenizer "no punctuation here".toList
      = ["no".toList, "punctuation".toList, "here".toList] := by
  refine ⟨fun text => rfl, ?_, ?_, by decide, by decide⟩
  · intro ss h
    have hnone : ss.findIdx? (fun c => isPunct c) = none :=
      List.findIdx?_eq_none_iff.mpr (by simpa using h)
    simp [customTokenizeSub, hnone]
  · intro ss i h
    simp [customTokenizeSub, h]

/-- Witness for C4: the no-punctuation conjunct applied to `"hello"`, and
the first-punctuation conjunct applied to `"hello,world"` (first match at
index 5). -/
theorem customTokenizer_spec_witness :
    customTokenizeSub "hello".toList = ["hello".toList] ∧
    customTokenizeSub "hello,world".toList
      = ["hello,world".toList.take 5, ("hello,world".toList.drop 5).take 1,
          "hello,world".toList.drop 6].filter (fun t => 0 < t.length) :=
  ⟨customTokenizer_spec.2.1 "hello".toList (by decide),
   customTokenizer_spec.2.2.1 "hello,world".toList 5 (by decide)⟩

/-- The validation evaluations of an epoch never touch the `processed`
list. -/
theorem foldl_processEval_processed (ev : List ℚ) (st : FitSt) :
    (ev.foldl processEval st).processed = st.processed := by
  induction ev generalizing st with
  | nil => rfl
  | cons f rest ih =>
    rw [List.foldl_cons, ih, processEval]
    split <;> rfl

/-- The validation evaluations of an epoch never touch the no-improvement
epoch counter. -/
theorem foldl_processEval_counter (ev : List ℚ) (st : FitSt) :
    (ev.foldl processEval st).noImproveEpoch = st.noImproveEpoch := by
  induction ev generalizing st with
  | nil => rfl
  | cons f rest ih =>
    rw [List.foldl_cons, ih, processEval]
    split <;> rfl

/-- A cleared no-improvement flag stays cleared through the evaluations of
an epoch (evaluations only ever clear it). -/
theorem foldl_processEval_flag (ev : List ℚ) (st : FitSt)
    (h : st.noImproveInPrevEpoch = false) :
    (ev.foldl processEval st).noImproveInPrevEpoch = false := by
  induction ev generalizing st with
  | nil => exact h
  | cons f rest ih =>
    rw [List.foldl_cons]
    apply ih
    rw [processEval]
    split
    · rfl
    · exact h

/-- Processing epoch `e` appends exactly `e` to the processed-epoch list. -/
theorem processEpoch_processed (e : ℕ) (ev : List ℚ) (st : FitSt) :
    (processEpoch e ev st).processed = st.processed ++ [e] := by
  rw [processEpoch, foldl_processEval_processed]

/-- Processing an epoch leaves the no-improvement counter unchanged. -/
theorem processEpoch_counter (e : ℕ) (ev : List ℚ) (st : FitSt) :
    (processEpoch e ev st).noImproveEpoch = st.noImproveEpoch := by
  rw [processEpoch, foldl_processEval_counter]

/-- Processing an epoch whose incoming flag is cleared leaves it cleared. -/
theorem processEpoch_flag (e : ℕ) (ev : List ℚ) (st : FitSt)
    (h : st.noImproveInPrevEpoch = false) :
    (processEpoch e ev st).noImproveInPrevEpoch = false := by
  rw [processEpoch]
  exact foldl_processEval_flag _ _ h

/-- With `warmup_epoch = 2` and `early_stop = 1`, the first three epochs of
`fit` always run: epochs 0 and 1 are pre-warmup, and at the top of epoch 2
the flag is still `False` (pre-warmup epochs never set it), so the counter
resets to 0, the flag is set, and epoch 2 is processed. -/
theorem fitGo_warmup2_first3 (ev0 ev1 ev2 : List ℚ) (rest : List (List ℚ)) :
    fitGo 2 1 0 (ev0 :: ev1 :: ev2 :: rest) initFitSt =
      fitGo 2 1 3 rest (processEpoch 2 ev2
        { processEpoch 1 ev1 (processEpoch 0 ev0 initFitSt) with
            noImproveEpoch := 0, noImproveInPrevEpoch := true }) := by
  have h0 : (processEpoch 0 ev0 initFitSt).noImproveInPrevEpoch = false :=
    processEpoch_flag _ _ _ rfl
  have h1 : (processEpoch 1 ev1
      (processEpoch 0 ev0 initFitSt)).noImproveInPrevEpoch = false :=
    processEpoch_flag _ _ _ h0
  rw [fitGo, if_neg (by norm_num)]
  rw [fitGo, if_neg (by norm_num)]
  rw [fitGo, if_pos (by norm_num), h1]
  simp only [Bool.false_eq_true, if_false]

/-- C1: early stopping has epoch granularity.  (i) At the top of an epoch
with index at least `warmup_epoch`, if the previous epoch ended with the
no-improvement flag set and the incremented counter reaches `early_stop`,
the loop halts with the processed-epoch list unchanged — no batch of the
new epoch runs.  (ii) If the previous epoch showed improvement (flag
cleared), the counter resets to 0, the flag is set, and the epoch is
processed.  (iii) In particular, with `warmup_epoch = 2` and
`early_stop = 1`, whenever epoch 2 completes with no F1 improvement, the
run processes exactly epochs 0, 1 and 2, and no batch of epoch 3. -/
theorem early_stop_epoch_granularity :
    (∀ warmup early_stop e evals rest st, warmup ≤ e →
        st.noImproveInPrevEpoch = true → early_stop ≤ st.noImproveEpoch + 1 →
        (fitGo warmup early_stop e (evals :: rest) st).processed
          = st.processed) ∧
    (∀ warmup early_stop e evals rest st, warmup ≤ e →
        st.noImproveInPrevEpoch = false →
        fitGo warmup early_stop e (evals :: rest) st
          = fitGo warmup early_stop (e + 1) rest
              (processEpoch e evals
                { st with noImproveEpoch := 0, noImproveInPrevEpoch := true })) ∧
    (∀ ev0 ev1 ev2 ev3 : List ℚ,
        (fit [ev0, ev1, ev2] 2 1).noImproveInPrevEpoch = true →
        (fit [ev0, ev1, ev2, ev3] 2 1).processed = [0, 1, 2] ∧
        3 ∉ (fit [ev0, ev1, ev2, ev3] 2 1).processed) := by
  refine ⟨?_, ?_, ?_⟩
  · intro warmup early_stop e evals rest st hwe hflag hc
    rw [fitGo, if_pos hwe, hflag]
    simp only [if_true]
    rw [if_pos hc]
  · intro warmup early_stop e evals rest st hwe hflag
    rw [fitGo, if_pos hwe, hflag]
    simp only [Bool.false_eq_true, if_false]
  · intro ev0 ev1 ev2 ev3 hflag
    have hpre : fit [ev0, ev1, ev2] 2 1
        = processEpoch 2 ev2
            { processEpoch 1 ev1 (processEpoch 0 ev0 initFitSt) with
                noImproveEpoch := 0, noImproveInPrevEpoch := true } := by
      rw [fit, fitGo_warmup2_first3]
      rfl
    rw [hpre] at hflag
    have hfull : fit [ev0, ev1, ev2, ev3] 2 1
        = fitGo 2 1 3 [ev3]
            (processEpoch 2 ev2
              { processEpoch 1 ev1 (processEpoch 0 ev0 initFitSt) with
                  noImproveEpoch := 0, noImproveInPrevEpoch := true }) := by
      rw [fit, fitGo_warmup2_first3]
    have hcount : (processEpoch 2 ev2
        { processEpoch 1 ev1 (processEpoch 0 ev0 initFitSt) with
            noImproveEpoch := 0, noImproveInPrevEpoch := true }).noImproveEpoch
        = 0 := by
      rw [processEpoch_counter]
    have hproc : (processEpoch 2 ev2
        { processEpoch 1 ev1 (processEpoch 0 ev0 initFitSt) with
            noImproveEpoch := 0, noImproveInPrevEpoch := true }).processed
        = [0, 1, 2] := by
      simp [processEpoch_processed, initFitSt]
    rw [hfull, fitGo, if_pos (by norm_num), hflag]
    simp only [if_true]
    rw [hcount, if_pos (by norm_num)]
    refine ⟨hproc, ?_⟩
    rw [hproc]
    decide

/-- Witness for C1: with per-epoch evaluation F1 sequences
`[[1/2], [1/2], [1/4], [1]]`, epoch 2's single evaluation (F1 `1/4`) does
not reach the running best `1/2`, so the no-improvement flag survives
epoch 2 and training halts with only epochs 0, 1, 2 processed. -/
theorem early_stop_epoch_granularity_witness :
    (fit [[(1 : ℚ)/2], [(1 : ℚ)/2], [(1 : ℚ)/4], [(1 : ℚ)]] 2 1).processed
      = [0, 1, 2] ∧
    3 ∉ (fit [[(1 : ℚ)/2], [(1 : ℚ)/2], [(1 : ℚ)/4], [(1 : ℚ)]] 2 1).processed :=
  early_stop_epoch_granularity.2.2 [(1 : ℚ)/2] [(1 : ℚ)/2] [(1 : ℚ)/4] [(1 : ℚ)]
    (by norm_num [fit, fitGo, processEpoch, processEval, initFitSt, List.foldl])

/-- C2: a validation evaluation saves a checkpoint exactly when the current
F1 is greater than or equal to the running best (a tie also saves), in
which case the best-F1 tracker is updated and the no-improvement flag is
cleared; a strictly worse F1 changes nothing.  For the F1 sequence
`[0.5, 0.5, 0.6, 0.55]` the save count after each evaluation is
1, 2, 3, 3 — saves at evaluations 1, 2 and 3 but not 4 — and the final
best F1 is `0.6`. -/
theorem checkpoint_save_rule :
    (∀ st f1, st.maxF1 ≤ f1 →
        processEval st f1
          = { st with
              maxF1 := f1, noImproveInPrevEpoch := false, saves := st.saves + 1 }) ∧
    (∀ st f1, f1 < st.maxF1 → processEval st f1 = st) ∧
    (([1/2] : List ℚ).foldl processEval initFitSt).saves = 1 ∧
    (([1/2, 1/2] : List ℚ).foldl processEval initFitSt).saves = 2 ∧
    (([1/2, 1/2, 3/5] : List ℚ).foldl processEval initFitSt).saves = 3 ∧
    (([1/2, 1/2, 3/5, 11/20] : List ℚ).foldl processEval initFitSt).saves = 3 ∧
    (([1/2, 1/2, 3/5, 11/20] : List ℚ).foldl processEval initFitSt).maxF1
      = 3/5 := by
  refine ⟨?_, ?_, ?_, ?_, ?_, ?_, ?_⟩
  · intro st f1 h
    rw [processEval, if_pos h]
  · intro st f1 h
    rw [processEval, if_neg (not_le.mpr h)]
  all_goals norm_num [List.foldl, processEval, initFitSt]

/-- Witness for C2: the save branch applied at the initial state with F1
`1/2` (a tie with nothing yet: `0 ≤ 1/2` saves), and the no-save branch at
best `3/5` with the strictly worse F1 `11/20`. -/
theorem checkpoint_save_rule_witness :
    processEval initFitSt (1/2)
      = { initFitSt with
          maxF1 := 1/2, noImproveInPrevEpoch := false, saves := 1 } ∧
    processEval { initFitSt with maxF1 := 3/5 } (11/20)
      = { initFitSt with maxF1 := 3/5 } := by
  constructor
  · exact checkpoint_save_rule.1 initFitSt (1/2) (by norm_num [initFitSt])
  · exact checkpoint_save_rule.2.1 _ _ (by norm_num [initFitSt])

/-- Folding one more candidate into the running maximum. -/
theorem runMax_cons (F : ℚ → ℚ) (b0 t : ℚ) (l : List ℚ) :
    runMax F b0 (t :: l) = runMax F (max b0 (F t)) l := rfl

/-- The running maximum dominates its starting value. -/
theorem le_runMax (F : ℚ → ℚ) (b0 : ℚ) (l : List ℚ) : b0 ≤ runMax F b0 l := by
  induction l generalizing b0 with
  | nil => exact le_refl b0
  | cons t l ih => exact le_trans (le_max_left _ _) (ih (max b0 (F t)))

/-- The running maximum dominates the score of every candidate. -/
theorem le_runMax_of_mem (F : ℚ → ℚ) (b0 t : ℚ) (l : List ℚ) (h : t ∈ l) :
    F t ≤ runMax F b0 l := by
  induction l generalizing b0 with
  | nil => cases h
  | cons a l ih =>
    rw [runMax_cons]
    rcases List.mem_cons.mp h with h' | h'
    · exact h' ▸ le_trans (le_max_right _ _) (le_runMax F _ l)
    · exact ih _ h'

/-- If no candidate beats the starting value, the running maximum is the
starting value. -/
theorem runMax_eq_of_all_le (F : ℚ → ℚ) (b0 : ℚ) (l : List ℚ)
    (h : ∀ u ∈ l, F u ≤ b0) : runMax F b0 l = b0 := by
  induction l with
  | nil => rfl
  | cons t l ih =>
    rw [runMax_cons, max_eq_left (h t (List.mem_cons_self t l))]
    exact ih (fun u hu => h u (List.mem_cons_of_mem t hu))

/-- The running maximum is the starting value or is attained by some
candidate. -/
theorem runMax_attained (F : ℚ → ℚ) (b0 : ℚ) (l : List ℚ) :
    runMax F b0 l = b0 ∨ ∃ u ∈ l, runMax F b0 l = F u := by
  induction l generalizing b0 with
  | nil => exact Or.inl rfl
  | cons t l ih =>
    rw [runMax_cons]
    rcases ih (max b0 (F t)) with h | ⟨u, hu, h⟩
    · rcases le_total (F t) b0 with hle | hle
      · exact Or.inl (by rw [h, max_eq_left hle])
      · exact Or.inr ⟨t, List.mem_cons_self t l, by rw [h, max_eq_right hle]⟩
    · exact Or.inr ⟨u, List.mem_cons_of_mem t hu, h⟩

/-- The scan of `_choose_tr` in closed form: if no candidate scores
strictly above the starting best, the initial pair survives; otherwise the
result is the first candidate attaining the maximum score (ties keep the
earliest candidate, since only a strictly greater score updates), paired
with that maximum. -/
theorem scanBest_eq (F : ℚ → ℚ) (l : List ℚ) (tr0 b0 : ℚ) :
    scanBest F l (tr0, b0) =
      if l.filter (fun t => decide (b0 < F t)) = [] then (tr0, b0)
      else ((l.filter (fun t => decide (runMax F b0 l ≤ F t))).headD tr0,
            runMax F b0 l) := by
  induction l generalizing tr0 b0 with
  | nil => simp [scanBest]
  | cons t l ih =>
    rw [scanBest]
    by_cases hbt : b0 < F t
    · rw [if_pos hbt, ih]
      have hmax : runMax F b0 (t :: l) = runMax F (F t) l := by
        rw [runMax_cons, max_eq_right (le_of_lt hbt)]
      have hcnil : ¬ (t :: l).filter (fun u => decide (b0 < F u)) = [] := by
        rw [List.filter_cons]
        simp [hbt]
      rw [if_neg hcnil, hmax]
      by_cases hall : ∀ u ∈ l, F u ≤ F t
      · have hfilt : l.filter (fun u => decide (F t < F u)) = [] :=
          List.filter_eq_nil.mpr (fun u hu => by simpa using not_lt.mpr (hall u hu))
        rw [if_pos hfilt]
        have hM : runMax F (F t) l = F t := runMax_eq_of_all_le F (F t) l hall
        rw [hM, List.filter_cons]
        simp
      · push_neg at hall
        obtain ⟨u, hu, hlt⟩ := hall
        have hfilt : ¬ l.filter (fun v => decide (F t < F v)) = [] := by
          intro hcontra
          have := List.filter_eq_nil.mp hcontra u hu
          simp [hlt] at this
        rw [if_neg hfilt]
        have hM : F t < runMax F (F t) l :=
          lt_of_lt_of_le hlt (le_runMax_of_mem F (F t) u l hu)
        have hskip : (t :: l).filter (fun v => decide (runMax F (F t) l ≤ F v))
            = l.filter (fun v => decide (runMax F (F t) l ≤ F v)) := by
          rw [List.filter_cons]
          simp [not_le.mpr hM]
        rw [hskip]
        have hne : ¬ l.filter (fun v => decide (runMax F (F t) l ≤ F v)) = [] := by
          rcases runMax_attained F (F t) l with h | ⟨v, hv, h⟩
          · exact absurd h (ne_of_gt hM)
          · intro hcontra
            have hv' := List.filter_eq_nil.mp hcontra v hv
            rw [h] at hv'
            simp at hv'
        obtain ⟨w, ws, hw⟩ : ∃ w ws,
            l.filter (fun v => decide (runMax F (F t) l ≤ F v)) = w :: ws := by
          cases hl : l.filter (fun v => decide (runMax F (F t) l ≤ F v)) with
          | nil => exact absurd hl hne
          | cons w ws => exact ⟨w, ws, rfl⟩
        rw [hw]
        rfl
    · rw [if_neg hbt, ih]
      have hft : F t ≤ b0 := not_lt.mp hbt
      have hmax : runMax F b0 (t :: l) = runMax F b0 l := by
        rw [runMax_cons, max_eq_left hft]
      have hfiltc : (t :: l).filter (fun u => decide (b0 < F u))
          = l.filter (fun u => decide (b0 < F u)) := by
        rw [List.filter_cons]
        simp [hbt]
      rw [hfiltc, hmax]
      by_cases hnil : l.filter (fun u => decide (b0 < F u)) = []
      · rw [if_pos hnil, if_pos hnil]
      · rw [if_neg hnil, if_neg hnil]
        have hex : ∃ u ∈ l, b0 < F u := by
          by_contra hcontra
          push_neg at hcontra
          exact hnil (List.filter_eq_nil.mpr
            (fun u hu => by simpa using not_lt.mpr (hcontra u hu)))
        obtain ⟨u, hu, hbu⟩ := hex
        have hM : ¬ runMax F b0 l ≤ F t :=
          not_le.mpr (lt_of_le_of_lt hft
            (lt_of_lt_of_le hbu (le_runMax_of_mem F b0 u l hu)))
        have hskip : (t :: l).filter (fun v => decide (runMax F b0 l ≤ F v))
            = l.filter (fun v => decide (runMax F b0 l ≤ F v)) := by
          rw [List.filter_cons]
          simp [hM]
        rw [hskip]

/-- Every scanned candidate lies in `[lo, hi)` when the step is positive
(`np.arange` semantics: up to but excluding the endpoint). -/
theorem arange_mem_bounds (lo hi step : ℚ) (hstep : 0 < step) :
    ∀ t ∈ arange lo hi step, lo ≤ t ∧ t < hi := by
  intro t ht
  rw [arange] at ht
  obtain ⟨i, hi1, hi2⟩ := List.mem_map.mp ht
  rw [List.mem_range] at hi1
  subst hi2
  constructor
  · have hnn : (0 : ℚ) ≤ i * step := mul_nonneg (by positivity) (le_of_lt hstep)
    linarith
  · have h1 : (i : ℤ) < ⌈(hi - lo) / step⌉ := Int.lt_toNat.mp hi1
    have h2' : (i : ℤ) ≤ ⌈(hi - lo) / step⌉ - 1 := by omega
    have h2 : (i : ℚ) ≤ (⌈(hi - lo) / step⌉ : ℚ) - 1 := by exact_mod_cast h2'
    have h3 : (⌈(hi - lo) / step⌉ : ℚ) < (hi - lo) / step + 1 :=
      Int.ceil_lt_add_one _
    have h4 : (i : ℚ) < (hi - lo) / step := by linarith
    have h5 : (i : ℚ) * step < hi - lo := by
      have hmul := mul_lt_mul_of_pos_right h4 hstep
      rwa [div_mul_cancel₀ _ (ne_of_gt hstep)] at hmul
    linarith

/-- The scanned candidates advance in steps of exactly `step` from `lo`:
the `i`-th candidate is `lo + i · step`. -/
theorem arange_get (lo hi step : ℚ) (i : ℕ)
    (h : i < (arange lo hi step).length) :
    (arange lo hi step).get ⟨i, h⟩ = lo + i * step := by
  simp only [arange, List.get_eq_getElem, List.getElem_map, List.getElem_range]

/-- C3: the automatic threshold search of `predict_labels`.  (i) With a
positive step, every scanned candidate lies in `[min_threshold,
max_threshold)`, and (ii) the `i`-th candidate is `min_threshold + i·step`.
(iii) The search returns, in closed form, the first candidate whose F1
attains the maximum F1 over the scan (ties keep the earliest/lowest
candidate, because only a strictly greater F1 updates the retained pair),
together with that maximum — or `(min_threshold, 0)` when no candidate
scores above 0.  (iv) The search is deterministic: equal inputs give equal
chosen thresholds and F1s. -/
theorem choose_tr_first_argmax :
    (∀ lo hi step : ℚ, 0 < step → ∀ t ∈ arange lo hi step, lo ≤ t ∧ t < hi) ∧
    (∀ (lo hi step : ℚ) (i : ℕ) (h : i < (arange lo hi step).length),
        (arange lo hi step).get ⟨i, h⟩ = lo + i * step) ∧
    (∀ valTrue valPred minTr maxTr trStep,
        choose_tr valTrue valPred minTr maxTr trStep
          = if (arange minTr maxTr trStep).filter
                (fun t => decide (0 < candF1 valTrue valPred t)) = []
            then (minTr, 0)
            else
              (((arange minTr maxTr trStep).filter
                  (fun t => decide (runMax (candF1 valTrue valPred) 0
                      (arange minTr maxTr trStep)
                        ≤ candF1 valTrue valPred t))).headD minTr,
               runMax (candF1 valTrue valPred) 0 (arange minTr maxTr trStep))) ∧
    (∀ vt₁ vp₁ a₁ b₁ c₁ vt₂ vp₂ a₂ b₂ c₂ , vt₁ = vt₂ → vp₁ = vp₂ → a₁ = a₂ →
        b₁ = b₂ → c₁ = c₂ →
        choose_tr vt₁ vp₁ a₁ b₁ c₁ = choose_tr vt₂ vp₂ a₂ b₂ c₂) := by
  refine ⟨arange_mem_bounds, arange_get, ?_, ?_⟩
  · intro valTrue valPred minTr maxTr trStep
    rw [choose_tr, scanBest_eq]
  · intro vt₁ vp₁ a₁ b₁ c₁ vt₂ vp₂ a₂ b₂ c₂ h1 h2 h3 h4 h5
    rw [h1, h2, h3, h4, h5]

/-- Witness for C3: on the scan `arange 0.1 0.5 0.1`, the candidate at
index 2 equals `0.1 + 2·0.1 = 0.3` and lies in `[0.1, 0.5)`; determinism
instantiated on a concrete search. -/
theorem choose_tr_first_argmax_witness :
    ((1 : ℚ)/10 ≤ 1/10 + (2 : ℕ) * (1/10) ∧
      (1 : ℚ)/10 + (2 : ℕ) * (1/10) < 1/2) ∧
    choose_tr [true, false] [3/4, 1/4] (1/10) (1/2) (1/10)
      = choose_tr [true, false] [3/4, 1/4] (1/10) (1/2) (1/10) := by
  have hlen : 2 < (arange (1/10) (1/2) (1/10)).length := by
    rw [arange, List.length_map, List.length_range]
    norm_num
  have hget := choose_tr_first_argmax.2.1 (1/10) (1/2) (1/10) 2 hlen
  have hmem : ((1 : ℚ)/10 + (2 : ℕ) * (1/10)) ∈ arange (1/10) (1/2) (1/10) :=
    hget ▸ List.get_mem _ _ _
  exact ⟨choose_tr_first_argmax.1 (1/10) (1/2) (1/10) (by norm_num) _ hmem,
    choose_tr_first_argmax.2.2.2 [true, false] [3/4, 1/4] (1/10) (1/2) (1/10)
      [true, false] [3/4, 1/4] (1/10) (1/2) (1/10) rfl rfl rfl rfl rfl⟩

end Quora
